import Mathlib

/-!
Verification of the review-scheduling and session-lifecycle engine of the
English-learning-tools repository (src/App.tsx, src/types.ts).

Times are epoch milliseconds, modelled as `Nat`.  Optional numeric fields of
the TypeScript interfaces (`lastNotifiedAt?`, `lastReviewedAt?`,
`lastPracticedAt?`) are modelled as `Option Nat`; JavaScript truthiness tests
on such a field (`!x`, `x && _`) treat both `undefined` and `0` as falsy, and
the embedding reproduces that explicitly at each use site.
-/

/-- From src/types.ts: `WordDetail` (`definitions` and `examples` are lists of
`{en, zh}` pairs, modelled as `String × String`). -/
structure WordDetail where
  word : String
  phonetic : String
  definitions : List (String × String)
  examples : List (String × String)
deriving DecidableEq

/-- From src/types.ts: `VocabularyWord extends WordDetail`. -/
structure VocabularyWord where
  word : String
  phonetic : String
  definitions : List (String × String)
  examples : List (String × String)
  addedAt : Nat
  lastPracticedAt : Option Nat := none
deriving DecidableEq

/-- From src/types.ts: `UserGoals`. -/
structure UserGoals where
  dailyNewWords : Nat
  dailyReviews : Nat
deriving DecidableEq

/-- From src/types.ts: `LearningSession`. -/
structure LearningSession where
  id : String
  originalImage : Option String := none
  extractedText : String
  words : List WordDetail
  userTranslation : String := ""
  aiTranslation : String := ""
  aiComparison : String := ""
  createdAt : Nat
  nextReviewAt : Nat
  reviewCount : Nat
  lastNotifiedAt : Option Nat := none
  lastReviewedAt : Option Nat := none
deriving DecidableEq

/-- From src/types.ts line 48: `EBBINGHAUS_INTERVALS = [1, 2, 4, 7, 15, 30]` (days). -/
def EBBINGHAUS_INTERVALS : List Nat := [1, 2, 4, 7, 15, 30]

/-- From src/App.tsx lines 182-189 (`processImageBase64`) and 228-235
(`handleManualSubmit`): the freshly captured session placed in
`currentSession` — `reviewCount: 0`, `nextReviewAt: Date.now() + 86400000`.
The fields the capture path leaves unset (`Partial<LearningSession>`) are
modelled by the structure defaults. -/
def newSessionAt (sid text : String) (t : Nat) : LearningSession :=
  { id := sid
    extractedText := text
    words := []
    createdAt := t
    nextReviewAt := t + 86400000
    reviewCount := 0 }

/-- From src/App.tsx line 279: `nextIntervalIndex = Math.min((existing.reviewCount || 0) + 1,
EBBINGHAUS_INTERVALS.length - 1)`.  (`reviewCount || 0` is the JS guard for a
missing field; with `reviewCount : Nat` it is the identity.) -/
def nextIntervalIndex (rc : Nat) : Nat :=
  min (rc + 1) (EBBINGHAUS_INTERVALS.length - 1)

/-- From src/App.tsx line 280: `daysToAdd = EBBINGHAUS_INTERVALS[nextIntervalIndex]`.
The index is clamped into range, so `getD`'s default is never reached. -/
def daysToAdd (rc : Nat) : Nat :=
  EBBINGHAUS_INTERVALS.getD (nextIntervalIndex rc) 0

/-- The interval-table lookup as the code performs it: the requested stage
index is clamped to the table's last index (src/App.tsx line 279), so the
schedule plateaus at the last entry. -/
def intervalTable (i : Nat) : Nat :=
  EBBINGHAUS_INTERVALS.getD (min i (EBBINGHAUS_INTERVALS.length - 1)) 0

/-- From src/App.tsx lines 290-297 (`handleFinishLearning`, new-session
branch): `reviewCount: 1`, `nextReviewAt: Date.now() + firstIntervalDays * 24*60*60*1000`
with `firstIntervalDays = EBBINGHAUS_INTERVALS[0]`, `lastReviewedAt: Date.now()`;
all other fields spread from `currentSession`. -/
def firstFinish (cur : LearningSession) (t : Nat) : LearningSession :=
  { cur with
    reviewCount := 1
    nextReviewAt := t + EBBINGHAUS_INTERVALS.getD 0 0 * (24 * 60 * 60 * 1000)
    lastReviewedAt := some t }

/-- The per-record effect of src/App.tsx lines 282-288 (`handleFinishLearning`,
existing-session branch) in the case where the record being updated is the one
`prev.find` returned (always true when ids are unique): `reviewCount + 1`,
`nextReviewAt = Date.now() + daysToAdd * 24*60*60*1000`, `lastNotifiedAt: 0`,
`lastReviewedAt: Date.now()`, all other fields spread from the stored record.
`completeReview_singleton` below relates it to the store-level operation. -/
def reviewUpdate (s : LearningSession) (t : Nat) : LearningSession :=
  { s with
    reviewCount := s.reviewCount + 1
    nextReviewAt := t + daysToAdd s.reviewCount * (24 * 60 * 60 * 1000)
    lastNotifiedAt := some 0
    lastReviewedAt := some t }

/-- From src/App.tsx lines 271-300 (`handleFinishLearning`): the store update
performed on `sessions` when learning finishes at instant `t` with
`currentSession = cur`.  `prev.find(s => s.id === currentSession.id)` decides
between the update-in-place branch (a `map` replacing every record whose id
matches, with `daysToAdd` computed from the found record) and the new-entry
branch (the new record is prepended). -/
def completeReview (store : List LearningSession) (cur : LearningSession)
    (t : Nat) : List LearningSession :=
  match store.find? (fun s => s.id == cur.id) with
  | some existing =>
      store.map (fun s =>
        if s.id == cur.id then
          { s with
            reviewCount := s.reviewCount + 1
            nextReviewAt := t + daysToAdd existing.reviewCount * (24 * 60 * 60 * 1000)
            lastNotifiedAt := some 0
            lastReviewedAt := some t }
        else s)
  | none => firstFinish cur t :: store

/-- JavaScript `!x` on an optional numeric field: true when the field is
absent or holds `0`. -/
def lastNotifiedFalsy (x : Option Nat) : Bool :=
  match x with
  | none => true
  | some v => v == 0

/-- From src/App.tsx lines 90-91 (`checkReviews`): the per-record condition
`s.nextReviewAt <= Date.now() && (!s.lastNotifiedAt || s.lastNotifiedAt < s.nextReviewAt)`.
The comparison `s.lastNotifiedAt < s.nextReviewAt` is only reached (by the
short-circuit of `||`) when the field holds a non-zero value, so reading it
through `getD 0` is exact. -/
def dueFlag (s : LearningSession) (now : Nat) : Bool :=
  decide (s.nextReviewAt ≤ now) &&
    (lastNotifiedFalsy s.lastNotifiedAt ||
      decide (s.lastNotifiedAt.getD 0 < s.nextReviewAt))

/-- From src/App.tsx lines 89-92 (`checkReviews`): the newly-due subset —
records that are due and not yet alerted for their current review cycle. -/
def newlyDue (records : List LearningSession) (now : Nat) : List LearningSession :=
  records.filter (fun s => dueFlag s now)

/-- From src/App.tsx line 94: `firstSession = dueSessions[0]`, the record the
notification's click handler navigates to. -/
def firstDueSession (records : List LearningSession) (now : Nat) :
    Option LearningSession :=
  (newlyDue records now).head?

/-- From src/App.tsx lines 86-113 (`checkReviews`): one notifier tick at
instant `now`.  Returns whether an alert was issued, and the record list after
the tick.  The permission guard (`Notification.permission !== 'granted'`)
short-circuits the whole body; when the newly-due set is non-empty one
aggregate alert is issued and every record whose id occurs in that set gets
`lastNotifiedAt = Date.now()` (line 108). -/
def checkReviews (granted : Bool) (records : List LearningSession) (now : Nat) :
    Bool × List LearningSession :=
  if granted then
    let dueSessions := newlyDue records now
    if dueSessions.length > 0 then
      (true, records.map (fun s =>
        if dueSessions.any (fun ds => ds.id == s.id) then
          { s with lastNotifiedAt := some now }
        else s))
    else (false, records)
  else (false, records)

/-- From src/App.tsx lines 52-57 (`dailyProgress`): counts of vocabulary items
with `addedAt >= startOfDay` and of sessions with
`lastReviewedAt && lastReviewedAt >= startOfDay`.  The code obtains
`startOfDay` as `new Date().setHours(0,0,0,0)` — the local-midnight instant of
the day containing the current time, a host-environment computation — so the
embedding takes that instant as the `startOfDay` parameter. -/
def dailyProgress (vocabulary : List VocabularyWord)
    (sessions : List LearningSession) (startOfDay : Nat) : Nat × Nat :=
  ((vocabulary.filter (fun v => decide (startOfDay ≤ v.addedAt))).length,
   (sessions.filter (fun s =>
      match s.lastReviewedAt with
      | none => false
      | some v => !(v == 0) && decide (startOfDay ≤ v))).length)

/-- From src/App.tsx line 347 (`ProgressBar`):
`Math.min(Math.round((current / goal) * 100), 100)`.  The source computes in
IEEE doubles; this embedding uses exact rationals with `round` (round half
toward positive infinity, as `Math.round` does).  At every input used in the
theorems below the double computation is exact enough that both agree; `goal = 0`
(where IEEE produces Infinity or NaN) is excluded from all statements. -/
def progressPercentage (current goal : ℤ) : ℤ :=
  min (round ((current : ℚ) / (goal : ℚ) * 100)) 100

/-- From src/App.tsx line 348 (`ProgressBar`): `isCompleted = current >= goal`. -/
def progressCompleted (current goal : ℤ) : Bool :=
  decide (goal ≤ current)

/-- From src/App.tsx line 699 (REVIEW_CENTER render):
`sessions.sort((a,b) => a.nextReviewAt - b.nextReviewAt)` — a stable ascending
sort by `nextReviewAt`, modelled by the stable `List.mergeSort`. -/
def sortByNextReviewAt (l : List LearningSession) : List LearningSession :=
  l.mergeSort (fun a b => a.nextReviewAt ≤ b.nextReviewAt)

/-- `Array.prototype.sort` sorts in place: after the REVIEW_CENTER view
renders, the array held in the `sessions` state is the sorted array itself,
not a copy.  This is the store content after the render. -/
def sessionsAfterReviewCenterRender (sessions : List LearningSession) :
    List LearningSession :=
  sortByNextReviewAt sessions

/-- The scheduling states a record can reach through this core's operations,
together with the instant of its last scheduling event: creation
(src/App.tsx lines 182-189 / 228-235), a first-ever completion (lines
290-297), and further completions (lines 282-288) at non-decreasing times. -/
inductive Reachable : LearningSession → Nat → Prop
  | created (sid text : String) (t : Nat) : Reachable (newSessionAt sid text t) t
  | firstDone (cur : LearningSession) (t : Nat) : Reachable (firstFinish cur t) t
  | reviewed (s : LearningSession) (t u : Nat) :
      Reachable s t → t ≤ u → Reachable (reviewUpdate s u) u

/-- A session fixture for concrete instances: only the scheduling fields vary. -/
def demoSession (sid : String) (next : Nat) (notified : Option Nat) : LearningSession :=
  { id := sid
    extractedText := ""
    words := []
    createdAt := 0
    nextReviewAt := next
    reviewCount := 1
    lastNotifiedAt := notified }

/-- A vocabulary fixture for concrete instances. -/
def demoVocab (w : String) (t : Nat) : VocabularyWord :=
  { word := w
    phonetic := ""
    definitions := []
    examples := []
    addedAt := t }

theorem ebbinghaus_getD_mono (a b : Nat) (hab : a ≤ b) (hb : b ≤ 5) :
    EBBINGHAUS_INTERVALS.getD a 0 ≤ EBBINGHAUS_INTERVALS.getD b 0 := by
  interval_cases b <;> interval_cases a <;> decide

theorem daysToAdd_mono (rc rc' : Nat) (h : rc ≤ rc') :
    daysToAdd rc ≤ daysToAdd rc' := by
  unfold daysToAdd nextIntervalIndex
  exact ebbinghaus_getD_mono _ _
    (min_le_min (Nat.add_le_add_right h 1) le_rfl) (min_le_right _ _)

theorem completeReview_singleton (s : LearningSession) (t : Nat) :
    completeReview [s] s t = [reviewUpdate s t] := by
  simp [completeReview, reviewUpdate, List.find?]

theorem reachable_next_le (s : LearningSession) (t : Nat) (h : Reachable s t) :
    s.nextReviewAt ≤ t + daysToAdd s.reviewCount * (24 * 60 * 60 * 1000) := by
  induction h with
  | created sid text t0 =>
      have hd : daysToAdd 0 = 2 := by decide
      simp only [newSessionAt, hd]
      omega
  | firstDone cur t0 =>
      have hd : daysToAdd 1 = 4 := by decide
      have hg : EBBINGHAUS_INTERVALS.getD 0 0 = 1 := by decide
      simp only [firstFinish, hd, hg]
      omega
  | reviewed s t u hr htu ih =>
      simp only [reviewUpdate]
      exact Nat.add_le_add_left
        (Nat.mul_le_mul_right _ (daysToAdd_mono _ _ (Nat.le_succ _))) u

/-- C1 counterexample: with the interval table `[1,2,4,7,15,30]`, a brand-new
item (created and first-reviewed at `T = 1000`) that completes its second
review at `T + 1 day + 1ms` does NOT get `nextReviewAt = T' + 2 days`: the code
indexes the table with `min(reviewCount + 1, 5) = 2` and schedules `T' + 4 days`. -/
theorem c1_counterexample :
    (completeReview
        (completeReview [] (newSessionAt "1" "Hello world" 1000) 1000)
        (firstFinish (newSessionAt "1" "Hello world" 1000) 1000)
        (1000 + 86400000 + 1)).map (fun s => s.nextReviewAt) ≠
      [(1000 + 86400000 + 1) + 2 * 86400000] := by
  decide

/-- C1 (amended): with interval table `[1,2,4,7,15,30]`, completing the
first-ever review of a brand-new item at `T` yields `reviewCount = 1` and
`nextReviewAt = T + 1 day`; completing a second review of that record at `T'`
yields `reviewCount = 2` and `nextReviewAt = T' + 4 days` (the scheduler
indexes the interval table with `min(reviewCount + 1, 5)`, so the second
completion uses the 4-day entry, not the 2-day entry). -/
theorem c1_amended (cur : LearningSession) (T Tp : Nat) :
    completeReview [] cur T = [firstFinish cur T] ∧
    (firstFinish cur T).reviewCount = 1 ∧
    (firstFinish cur T).nextReviewAt = T + 86400000 ∧
    completeReview [firstFinish cur T] (firstFinish cur T) Tp =
      [reviewUpdate (firstFinish cur T) Tp] ∧
    (reviewUpdate (firstFinish cur T) Tp).reviewCount = 2 ∧
    (reviewUpdate (firstFinish cur T) Tp).nextReviewAt = Tp + 4 * 86400000 := by
  refine ⟨rfl, rfl, ?_, completeReview_singleton _ _, rfl, ?_⟩
  · simp [firstFinish, EBBINGHAUS_INTERVALS]
  · have hd : daysToAdd 1 = 4 := by decide
    simp [reviewUpdate, firstFinish, hd]

/-- C5: every completion of an already-stored record increases `reviewCount`
by exactly 1; the first-ever completion of a fresh capture (whose
`reviewCount` is 0) sets it to 1, also an increase by exactly 1; and the
counter is uncapped — it keeps growing past the interval table's length while
the table index used for scheduling stays clamped at the last index. -/
theorem c5_reviewCount_increments :
    (∀ (s : LearningSession) (t : Nat),
      (reviewUpdate s t).reviewCount = s.reviewCount + 1) ∧
    (∀ (cur : LearningSession) (t : Nat), cur.reviewCount = 0 →
      (firstFinish cur t).reviewCount = cur.reviewCount + 1) ∧
    (∀ (s : LearningSession) (t : Nat),
      EBBINGHAUS_INTERVALS.length ≤ s.reviewCount →
        (reviewUpdate s t).reviewCount = s.reviewCount + 1 ∧
        EBBINGHAUS_INTERVALS.length < (reviewUpdate s t).reviewCount ∧
        nextIntervalIndex s.reviewCount = EBBINGHAUS_INTERVALS.length - 1) := by
  refine ⟨fun s t => rfl, fun cur t h => by simp [firstFinish, h], fun s t h => ?_⟩
  refine ⟨rfl, ?_, ?_⟩
  · simp only [reviewUpdate]
    omega
  · have h6 : EBBINGHAUS_INTERVALS.length = 6 := by decide
    simp only [nextIntervalIndex, h6] at *
    omega

/-- Witness for C5 at a record with `reviewCount = 10`: the counter reaches 11
(past the table length 6) while the scheduling index stays at the last index. -/
theorem c5_reviewCount_increments_witness :
    (reviewUpdate { demoSession "a" 0 none with reviewCount := 10 } 5).reviewCount
        = 10 + 1 ∧
    EBBINGHAUS_INTERVALS.length <
      (reviewUpdate { demoSession "a" 0 none with reviewCount := 10 } 5).reviewCount ∧
    nextIntervalIndex 10 = EBBINGHAUS_INTERVALS.length - 1 :=
  c5_reviewCount_increments.2.2 { demoSession "a" 0 none with reviewCount := 10 } 5
    (by decide)

/-- C6: the interval lookup plateaus — every stage index at or beyond the
table length yields the last entry — and completing a review of any record
whose `reviewCount + 1` is at or beyond the table's last index schedules
`nextReviewAt = outcomeTime + 30 days` (the operation is total: no error,
no extrapolation). -/
theorem c6_interval_plateau :
    (∀ i : Nat, EBBINGHAUS_INTERVALS.length ≤ i →
      intervalTable i = intervalTable (EBBINGHAUS_INTERVALS.length - 1)) ∧
    (∀ (s : LearningSession) (t : Nat),
      EBBINGHAUS_INTERVALS.length - 1 ≤ s.reviewCount + 1 →
        completeReview [s] s t = [reviewUpdate s t] ∧
        (reviewUpdate s t).nextReviewAt = t + 30 * (24 * 60 * 60 * 1000)) := by
  constructor
  · intro i hi
    simp only [intervalTable, EBBINGHAUS_INTERVALS] at *
    congr 1
    omega
  · intro s t h
    refine ⟨completeReview_singleton s t, ?_⟩
    have h6 : EBBINGHAUS_INTERVALS.length = 6 := by decide
    have hmin : nextIntervalIndex s.reviewCount = 5 := by
      simp only [nextIntervalIndex, h6] at *
      omega
    have hd : daysToAdd s.reviewCount = 30 := by
      simp only [daysToAdd, hmin]
      decide
    simp only [reviewUpdate, hd]

/-- Witness for C6: stage index 10 plateaus to the last entry, and a record
with `reviewCount = 7` is rescheduled 30 days after the completion instant. -/
theorem c6_interval_plateau_witness :
    intervalTable 10 = intervalTable (EBBINGHAUS_INTERVALS.length - 1) ∧
    (reviewUpdate { demoSession "a" 0 none with reviewCount := 7 } 3).nextReviewAt
      = 3 + 30 * (24 * 60 * 60 * 1000) :=
  ⟨c6_interval_plateau.1 10 (by decide),
   (c6_interval_plateau.2 { demoSession "a" 0 none with reviewCount := 7 } 3
     (by decide)).2⟩

theorem dueFlag_false_of_future (s : LearningSession) (now2 : Nat)
    (h : now2 < s.nextReviewAt) : dueFlag s now2 = false := by
  unfold dueFlag
  rw [decide_eq_false (by omega)]
  simp

theorem dueFlag_false_stable (s : LearningSession) (now now2 : Nat)
    (hmono : now < s.nextReviewAt → now2 < s.nextReviewAt)
    (hf : dueFlag s now = false) : dueFlag s now2 = false := by
  by_cases hle : s.nextReviewAt ≤ now
  · simp only [dueFlag, decide_eq_true hle, Bool.true_and] at hf
    simp only [dueFlag, hf, Bool.and_false]
  · exact dueFlag_false_of_future _ _ (hmono (by omega))

theorem dueFlag_updated_false (s : LearningSession) (now now2 : Nat)
    (h0 : 0 < now) (hmono : now < s.nextReviewAt → now2 < s.nextReviewAt) :
    dueFlag { s with lastNotifiedAt := some now } now2 = false := by
  by_cases hle : s.nextReviewAt ≤ now
  · have h1 : (now == 0) = false := by
      simp only [beq_eq_false_iff_ne, ne_eq]
      omega
    have h2 : decide ((some now).getD 0 < s.nextReviewAt) = false :=
      decide_eq_false (by simp only [Option.getD_some]; omega)
    simp [dueFlag, lastNotifiedFalsy, h1, h2]
    omega
  · exact dueFlag_false_of_future _ _ (hmono (by omega))

/-- C2: for every record list and every instant `now`, the newly-due
detection returns exactly the records of the list with `nextReviewAt ≤ now`
and (`lastNotifiedAt` absent or zero, or `lastNotifiedAt < nextReviewAt`),
and no others. -/
theorem c2_newlyDue_exact (records : List LearningSession) (now : Nat)
    (s : LearningSession) :
    s ∈ newlyDue records now ↔
      s ∈ records ∧ s.nextReviewAt ≤ now ∧
        ((s.lastNotifiedAt = none ∨ s.lastNotifiedAt = some 0) ∨
          ∃ v, s.lastNotifiedAt = some v ∧ v < s.nextReviewAt) := by
  rw [newlyDue, List.mem_filter]
  cases hn : s.lastNotifiedAt with
  | none => simp [dueFlag, lastNotifiedFalsy, hn]
  | some v =>
      simp only [dueFlag, lastNotifiedFalsy, hn, Option.getD_some, Bool.and_eq_true,
        Bool.or_eq_true, beq_iff_eq, decide_eq_true_eq, Option.some.injEq,
        reduceCtorEq, false_or, and_congr_right_iff]
      intro _ _
      constructor
      · rintro (h | h)
        · exact Or.inl h
        · exact Or.inr ⟨v, rfl, h⟩
      · rintro (h | ⟨w, hw, hlt⟩)
        · exact Or.inl h
        · cases hw
          exact Or.inr hlt

/-- C4: `nextReviewAt` never moves earlier — for every record reachable
through this core's operations and every completion at an instant `u` not
earlier than the record's last scheduling event `t`, the record produced by
`completeReview` has `nextReviewAt` at least the old value. -/
theorem c4_nextReviewAt_monotone (s : LearningSession) (t u : Nat)
    (h : Reachable s t) (htu : t ≤ u) :
    ∀ r ∈ completeReview [s] s u, s.nextReviewAt ≤ r.nextReviewAt := by
  intro r hr
  rw [completeReview_singleton] at hr
  rw [List.mem_singleton] at hr
  subst hr
  calc s.nextReviewAt
      ≤ t + daysToAdd s.reviewCount * (24 * 60 * 60 * 1000) :=
        reachable_next_le s t h
    _ ≤ u + daysToAdd s.reviewCount * (24 * 60 * 60 * 1000) :=
        Nat.add_le_add_right htu _
    _ = (reviewUpdate s u).nextReviewAt := rfl

/-- Witness for C4: a record created at time 0 and completed at time
90000000 keeps a non-decreasing `nextReviewAt`. -/
theorem c4_nextReviewAt_monotone_witness :
    (newSessionAt "1" "x" 0).nextReviewAt ≤
      (reviewUpdate (newSessionAt "1" "x" 0) 90000000).nextReviewAt :=
  c4_nextReviewAt_monotone (newSessionAt "1" "x" 0) 0 90000000
    (Reachable.created "1" "x" 0) (by decide)
    (reviewUpdate (newSessionAt "1" "x" 0) 90000000) (by decide)

/-- C3: the notifier tick is idempotent per due crossing.  With permission
granted, a tick at `now` issues an alert exactly when the newly-due set is
non-empty and stamps `lastNotifiedAt = now` on every record of that set; a
second tick on the resulting records at any `now2 ≥ now` that crosses no new
due date (and with `now` a positive instant) finds an empty newly-due set and
issues no alert, leaving the records unchanged. -/
theorem c3_tick_idempotent (records : List LearningSession) (now now2 : Nat)
    (h0 : 0 < now) (h12 : now ≤ now2)
    (hcross : ∀ s ∈ records, now < s.nextReviewAt → now2 < s.nextReviewAt) :
    ((checkReviews true records now).1 = true ↔ newlyDue records now ≠ []) ∧
    (∀ s ∈ newlyDue records now,
      { s with lastNotifiedAt := some now } ∈ (checkReviews true records now).2) ∧
    newlyDue (checkReviews true records now).2 now2 = [] ∧
    checkReviews true (checkReviews true records now).2 now2 =
      (false, (checkReviews true records now).2) := by
  have key : newlyDue (checkReviews true records now).2 now2 = [] := by
    by_cases hdue : newlyDue records now = []
    · have h2 : (checkReviews true records now).2 = records := by
        simp [checkReviews, hdue]
      rw [h2]
      refine List.filter_eq_nil_iff.mpr fun s hsm => ?_
      have hf : dueFlag s now = false :=
        Bool.not_eq_true _ ▸ (List.filter_eq_nil_iff.mp hdue s hsm)
      rw [dueFlag_false_stable s now now2 (hcross s hsm) hf]
      simp
    · have hlen : 0 < (newlyDue records now).length := List.length_pos.mpr hdue
      have h2 : (checkReviews true records now).2 =
          records.map (fun s =>
            if (newlyDue records now).any (fun ds => ds.id == s.id) then
              { s with lastNotifiedAt := some now }
            else s) := by
        simp [checkReviews, hlen]
      rw [h2]
      refine List.filter_eq_nil_iff.mpr fun x hx => ?_
      rcases List.mem_map.mp hx with ⟨s, hsm, rfl⟩
      by_cases hany : (newlyDue records now).any (fun ds => ds.id == s.id) = true
      · rw [if_pos hany, dueFlag_updated_false s now now2 h0 (hcross s hsm)]
        simp
      · rw [if_neg hany]
        have hf : dueFlag s now = false := by
          by_contra hft
          rw [Bool.not_eq_false] at hft
          exact hany (List.any_eq_true.mpr
            ⟨s, List.mem_filter.mpr ⟨hsm, hft⟩, beq_self_eq_true s.id⟩)
        rw [dueFlag_false_stable s now now2 (hcross s hsm) hf]
        simp
  refine ⟨?_, ?_, key, ?_⟩
  · by_cases hdue : newlyDue records now = []
    · simp [checkReviews, hdue]
    · have hlen : 0 < (newlyDue records now).length := List.length_pos.mpr hdue
      simp [checkReviews, hlen, hdue]
  · intro s hs
    have hdue : newlyDue records now ≠ [] := by
      intro h
      rw [h] at hs
      exact absurd hs (List.not_mem_nil s)
    have hlen : 0 < (newlyDue records now).length := List.length_pos.mpr hdue
    have h2 : (checkReviews true records now).2 =
        records.map (fun s =>
          if (newlyDue records now).any (fun ds => ds.id == s.id) then
            { s with lastNotifiedAt := some now }
          else s) := by
      simp [checkReviews, hlen]
    rw [h2]
    refine List.mem_map.mpr ⟨s, (List.mem_filter.mp hs).1, ?_⟩
    rw [if_pos (List.any_eq_true.mpr ⟨s, hs, beq_self_eq_true s.id⟩)]
  · generalize hR : (checkReviews true records now).2 = R2 at key ⊢
    simp [checkReviews, key]

/-- Witness for C3: one overdue never-notified record; the first tick at
instant 100 alerts, the second tick at the same instant finds nothing newly
due and changes nothing. -/
theorem c3_tick_idempotent_witness :
    (checkReviews true [demoSession "a" 50 none] 100).1 = true ∧
    newlyDue (checkReviews true [demoSession "a" 50 none] 100).2 100 = [] ∧
    checkReviews true (checkReviews true [demoSession "a" 50 none] 100).2 100 =
      (false, (checkReviews true [demoSession "a" 50 none] 100).2) := by
  have h := c3_tick_idempotent [demoSession "a" 50 none] 100 100
    (by decide) (by decide) (by decide)
  exact ⟨h.1.mpr (by decide), h.2.2.1, h.2.2.2⟩

/-- C7: with `startOfDay` the local-midnight instant (a positive epoch
instant), `newWords` counts exactly the vocabulary items with
`addedAt ≥ startOfDay` and `reviewsDone` counts exactly the sessions with
`lastReviewedAt` present and `≥ startOfDay`; an item added one second before
the next midnight still counts for the current day and stops counting once
the day rolls over, an item added exactly at the next midnight counts for
that next day, and during a day only items added that day are counted. -/
theorem c7_dailyProgress_counts (vocab : List VocabularyWord)
    (sessions : List LearningSession) (d : Nat) (hd : 0 < d) :
    (dailyProgress vocab sessions d).1 =
      vocab.countP (fun v => decide (d ≤ v.addedAt)) ∧
    (dailyProgress vocab sessions d).2 =
      sessions.countP (fun s =>
        match s.lastReviewedAt with
        | none => false
        | some v => decide (d ≤ v)) ∧
    (∀ v : VocabularyWord, v.addedAt = d + 86399000 →
      (dailyProgress [v] [] d).1 = 1 ∧
      (dailyProgress [v] [] (d + 86400000)).1 = 0) ∧
    (∀ v : VocabularyWord, v.addedAt = d + 86400000 →
      (dailyProgress [v] [] (d + 86400000)).1 = 1) ∧
    (∀ (vocab2 : List VocabularyWord) (now : Nat),
      d ≤ now → now < d + 86400000 → (∀ v ∈ vocab2, v.addedAt ≤ now) →
      (dailyProgress vocab2 [] d).1 =
        vocab2.countP (fun v =>
          decide (d ≤ v.addedAt) && decide (v.addedAt < d + 86400000))) := by
  refine ⟨?_, ?_, ?_, ?_, ?_⟩
  · rw [List.countP_eq_length_filter]
    rfl
  · rw [List.countP_eq_length_filter]
    simp only [dailyProgress]
    congr 1
    refine List.filter_congr fun s hs => ?_
    cases hl : s.lastReviewedAt with
    | none => rfl
    | some v =>
        by_cases hdv : d ≤ v
        · have hv0 : (v == 0) = false := by
            simp only [beq_eq_false_iff_ne, ne_eq]
            omega
          simp [hdv, hv0]
        · simp [hdv]
  · intro v hv
    constructor
    · have h1 : decide (d ≤ v.addedAt) = true := decide_eq_true (by omega)
      simp [dailyProgress, h1]
    · have h1 : decide (d + 86400000 ≤ v.addedAt) = false := decide_eq_false (by omega)
      simp [dailyProgress, h1]
  · intro v hv
    have h1 : decide (d + 86400000 ≤ v.addedAt) = true := decide_eq_true (by omega)
    simp [dailyProgress, h1]
  · intro vocab2 now hnow1 hnow2 hsnap
    rw [List.countP_eq_length_filter]
    simp only [dailyProgress]
    congr 1
    refine List.filter_congr fun v hvm => ?_
    have h2 : decide (v.addedAt < d + 86400000) = true :=
      decide_eq_true (by have := hsnap v hvm; omega)
    rw [h2, Bool.and_true]

/-- Witness for C7 at `startOfDay = 86400000` and a one-item vocabulary. -/
theorem c7_dailyProgress_counts_witness :
    (dailyProgress [demoVocab "w" 100000000] [] 86400000).1 =
      [demoVocab "w" 100000000].countP (fun v => decide (86400000 ≤ v.addedAt)) :=
  (c7_dailyProgress_counts [demoVocab "w" 100000000] [] 86400000 (by decide)).1

/-- C8 counterexample: the claim says a goal ≤ 0 is treated as already
satisfied (100%), but at `current = 3`, `goal = -5` the source computes
`Math.min(Math.round((3 / -5) * 100), 100) = -60` (the IEEE-double computation
is exact at this input: `(3 / -5) * 100` evaluates to exactly `-60`), not 100. -/
theorem c8_counterexample :
    progressPercentage 3 (-5) = -60 ∧ progressPercentage 3 (-5) ≠ 100 := by
  constructor
  · norm_num [progressPercentage, round_eq]
  · norm_num [progressPercentage, round_eq]

/-- C8 (amended): for every current count and positive goal the displayed
percentage is `min(round(100 * current / goal), 100)`: with goal 5, current 3
gives 60 (not completed), current 5 gives 100 with the completed flag set,
current 6 stays capped at 100, and reaching the goal always yields 100.
Goals ≤ 0 are NOT treated specially: a negative goal produces a negative
percentage (see the counterexample). -/
theorem c8_progress_percentage :
    (∀ current g : ℤ, progressPercentage current g ≤ 100) ∧
    (∀ current g : ℤ, progressCompleted current g = true ↔ g ≤ current) ∧
    progressPercentage 3 5 = 60 ∧ progressCompleted 3 5 = false ∧
    progressPercentage 5 5 = 100 ∧ progressCompleted 5 5 = true ∧
    progressPercentage 6 5 = 100 ∧
    (∀ current g : ℤ, 0 < g → g ≤ current →
      progressPercentage current g = 100) := by
  refine ⟨fun c g => min_le_right _ _, fun c g => by simp [progressCompleted],
    ?_, ?_, ?_, ?_, ?_, ?_⟩
  · norm_num [progressPercentage, round_eq]
  · norm_num [progressCompleted]
  · norm_num [progressPercentage, round_eq]
  · norm_num [progressCompleted]
  · norm_num [progressPercentage, round_eq]
  · intro c g hg hgc
    have hg2 : (0:ℚ) < (g:ℚ) := by exact_mod_cast hg
    have h1 : (1:ℚ) ≤ (c:ℚ) / (g:ℚ) := (one_le_div hg2).mpr (by exact_mod_cast hgc)
    have h3 : (100:ℤ) ≤ round ((c:ℚ) / (g:ℚ) * 100) := by
      rw [round_eq, Int.le_floor]
      push_cast
      nlinarith
    rw [progressPercentage]
    exact min_eq_right h3

/-- Witness for C8: a goal of 4 fully met by a count of 12 reads 100%. -/
theorem c8_progress_percentage_witness : progressPercentage 12 4 = 100 :=
  c8_progress_percentage.2.2.2.2.2.2.2 12 4 (by norm_num) (by norm_num)

/-- C9: completing a review is a whole-record replacement that changes only
the scheduling fields.  When no stored record matches the session's id the
new record is prepended to the front, carrying the session's id, `createdAt`
and content payload unchanged; when a match exists the store is mapped so
that every record with a different id is untouched and each record with the
matching id keeps its id, `createdAt` and content fields while `reviewCount`,
`nextReviewAt`, `lastNotifiedAt` and `lastReviewedAt` are updated. -/
theorem c9_completeReview_frame (store : List LearningSession)
    (cur : LearningSession) (t : Nat) :
    (store.find? (fun s => s.id == cur.id) = none →
      completeReview store cur t = firstFinish cur t :: store ∧
      (firstFinish cur t).id = cur.id ∧
      (firstFinish cur t).createdAt = cur.createdAt ∧
      (firstFinish cur t).extractedText = cur.extractedText ∧
      (firstFinish cur t).words = cur.words ∧
      (firstFinish cur t).userTranslation = cur.userTranslation ∧
      (firstFinish cur t).aiTranslation = cur.aiTranslation ∧
      (firstFinish cur t).aiComparison = cur.aiComparison ∧
      (firstFinish cur t).originalImage = cur.originalImage ∧
      (firstFinish cur t).reviewCount = 1 ∧
      (firstFinish cur t).lastReviewedAt = some t) ∧
    (∀ ex, store.find? (fun s => s.id == cur.id) = some ex →
      ∃ f, completeReview store cur t = store.map f ∧
        ∀ s : LearningSession,
          ((s.id == cur.id) = false → f s = s) ∧
          ((s.id == cur.id) = true →
            (f s).id = s.id ∧
            (f s).createdAt = s.createdAt ∧
            (f s).extractedText = s.extractedText ∧
            (f s).words = s.words ∧
            (f s).userTranslation = s.userTranslation ∧
            (f s).aiTranslation = s.aiTranslation ∧
            (f s).aiComparison = s.aiComparison ∧
            (f s).originalImage = s.originalImage ∧
            (f s).reviewCount = s.reviewCount + 1 ∧
            (f s).nextReviewAt =
              t + daysToAdd ex.reviewCount * (24 * 60 * 60 * 1000) ∧
            (f s).lastNotifiedAt = some 0 ∧
            (f s).lastReviewedAt = some t)) := by
  constructor
  · intro hnone
    refine ⟨?_, rfl, rfl, rfl, rfl, rfl, rfl, rfl, rfl, rfl, rfl⟩
    unfold completeReview
    rw [hnone]
  · intro ex hex
    refine ⟨fun s =>
      if s.id == cur.id then
        { s with
          reviewCount := s.reviewCount + 1
          nextReviewAt := t + daysToAdd ex.reviewCount * (24 * 60 * 60 * 1000)
          lastNotifiedAt := some 0
          lastReviewedAt := some t }
      else s, ?_, ?_⟩
    · unfold completeReview
      rw [hex]
    · intro s
      constructor
      · intro h
        simp [h]
      · intro h
        simp [h]

/-- Witness for C9: finishing a capture whose id is absent from an empty
store prepends the first-finished record. -/
theorem c9_completeReview_frame_witness :
    completeReview [] (demoSession "a" 7 none) 3 =
      firstFinish (demoSession "a" 7 none) 3 :: [] :=
  ((c9_completeReview_frame [] (demoSession "a" 7 none) 3).1 (by rfl)).1

unseal List.merge List.mergeSort in
/-- C10: rendering the review-schedule listing sorts the session store's
array in place, ascending by `nextReviewAt`: the result is a permutation of
the store, sorted, and it is what the store holds afterwards — so the
insertion order (newest first) is lost, and the record that later
due-detection (`dueSessions[0]`) picks as first changes: with the store
`[a@200, b@100]` and both records due at 300, the first due record is `a`
before the render and `b` after it. -/
theorem c10_reviewCenter_sorts_in_place :
    (∀ l : List LearningSession, (sessionsAfterReviewCenterRender l).Perm l) ∧
    (∀ l : List LearningSession,
      List.Pairwise (fun x y => x.nextReviewAt ≤ y.nextReviewAt)
        (sessionsAfterReviewCenterRender l)) ∧
    sessionsAfterReviewCenterRender
        [demoSession "a" 200 none, demoSession "b" 100 none] =
      [demoSession "b" 100 none, demoSession "a" 200 none] ∧
    sessionsAfterReviewCenterRender
        [demoSession "a" 200 none, demoSession "b" 100 none] ≠
      [demoSession "a" 200 none, demoSession "b" 100 none] ∧
    firstDueSession [demoSession "a" 200 none, demoSession "b" 100 none] 300 =
      some (demoSession "a" 200 none) ∧
    firstDueSession
      (sessionsAfterReviewCenterRender
        [demoSession "a" 200 none, demoSession "b" 100 none]) 300 =
      some (demoSession "b" 100 none) ∧
    demoSession "a" 200 none ≠ demoSession "b" 100 none := by
  refine ⟨fun l => List.mergeSort_perm l _, fun l => ?_, by decide, by decide,
    by decide, by decide, by decide⟩
  have hs := @List.sorted_mergeSort LearningSession
    (fun x y : LearningSession => decide (x.nextReviewAt ≤ y.nextReviewAt))
    (fun a b c h1 h2 => decide_eq_true
      (Nat.le_trans (of_decide_eq_true h1) (of_decide_eq_true h2)))
    (fun a b => by simpa using Nat.le_total a.nextReviewAt b.nextReviewAt)
    l
  exact hs.imp fun h => of_decide_eq_true h
